import Mathlib

/-!
Verification development for the Subway-LiveIQ-Tool data-acquisition core.

The Python source (`main.py` plus the two `modules/*.py` report views) is
shallowly embedded below: JSON values become a mutual inductive, the
flattening routine and its dict-merge semantics become list functions with
explicit Python-dict insertion behaviour, network and log I/O become
oracle parameters, and the GUI dispatch loop becomes a pure fold producing
the list of submitted fetches.
-/

namespace LiveIQ

/-! ## Decimal rendering of naturals (Python `str(i)` / f-string `{i}`)

Written with explicit fuel so that every definition reduces inside the
kernel; `natStr` is the entry point and `natDig_unfold` recovers the
usual recursion. -/

/-- The character for one decimal digit (`0`–`9` for `n < 10`). -/
def digitChar (n : Nat) : Char := Char.ofNat (48 + n)

/-- Decimal digit list of `n`, with fuel; correct whenever `n < fuel`. -/
def natDigAux : Nat → Nat → List Char
  | 0, _ => []
  | fuel + 1, n =>
    if n < 10 then [digitChar n]
    else natDigAux fuel (n / 10) ++ [digitChar (n % 10)]

/-- Decimal digit list of `n`. -/
def natDig (n : Nat) : List Char := natDigAux (n + 1) n

/-- Decimal rendering of a natural, as Python `str` produces it. -/
def natStr (n : Nat) : String := ⟨natDig n⟩

theorem natDigAux_congr : ∀ n f g, n < f → n < g → natDigAux f n = natDigAux g n := by
  intro n
  induction n using Nat.strong_induction_on with
  | _ n ih =>
    intro f g hf hg
    match f, g with
    | f + 1, g + 1 =>
      by_cases h : n < 10
      · simp [natDigAux, h]
      · have h10 : 10 ≤ n := Nat.le_of_not_lt h
        have hlt : n / 10 < n := Nat.div_lt_self (Nat.lt_of_lt_of_le (by decide) h10) (by decide)
        have hf' : n / 10 < f := Nat.lt_of_lt_of_le hlt (Nat.lt_succ_iff.mp hf)
        have hg' : n / 10 < g := Nat.lt_of_lt_of_le hlt (Nat.lt_succ_iff.mp hg)
        simp [natDigAux, h, ih (n / 10) hlt f g hf' hg']

theorem natDig_unfold (n : Nat) :
    natDig n = if n < 10 then [digitChar n] else natDig (n / 10) ++ [digitChar (n % 10)] := by
  by_cases h : n < 10
  · simp [natDig, natDigAux, h]
  · have h10 : 10 ≤ n := Nat.le_of_not_lt h
    have hlt : n / 10 < n := Nat.div_lt_self (Nat.lt_of_lt_of_le (by decide) h10) (by decide)
    have : natDigAux n (n / 10) = natDigAux (n / 10 + 1) (n / 10) :=
      natDigAux_congr (n / 10) n (n / 10 + 1) hlt (Nat.lt_succ_self _)
    simp [natDig, natDigAux, h, this]

theorem natDig_ne_nil (n : Nat) : natDig n ≠ [] := by
  rw [natDig_unfold]
  by_cases h : n < 10 <;> simp [h]

theorem digitChar_toNat {n : Nat} (h : n < 10) : (digitChar n).toNat = 48 + n := by
  interval_cases n <;> decide

theorem natDig_mem_range : ∀ n, ∀ c ∈ natDig n, 48 ≤ c.toNat ∧ c.toNat < 58 := by
  intro n
  induction n using Nat.strong_induction_on with
  | _ n ih =>
    intro c hc
    rw [natDig_unfold] at hc
    by_cases h : n < 10
    · simp [h] at hc
      subst hc
      rw [digitChar_toNat h]
      omega
    · have h10 : 10 ≤ n := Nat.le_of_not_lt h
      have hlt : n / 10 < n := Nat.div_lt_self (Nat.lt_of_lt_of_le (by decide) h10) (by decide)
      simp [h] at hc
      rcases hc with hc | hc
      · exact ih (n / 10) hlt c hc
      · subst hc
        rw [digitChar_toNat (Nat.mod_lt n (by decide))]
        have := Nat.mod_lt n (show 0 < 10 by decide)
        omega

theorem digitChar_inj {m n : Nat} (hm : m < 10) (hn : n < 10)
    (h : digitChar m = digitChar n) : m = n := by
  have := congrArg Char.toNat h
  rw [digitChar_toNat hm, digitChar_toNat hn] at this
  omega

theorem natDig_inj : ∀ m n, natDig m = natDig n → m = n := by
  intro m
  induction m using Nat.strong_induction_on with
  | _ m ih =>
    intro n h
    rw [natDig_unfold m, natDig_unfold n] at h
    by_cases hm : m < 10 <;> by_cases hn : n < 10
    · simp [hm, hn] at h
      exact digitChar_inj hm hn h
    · simp [hm, hn] at h
      rcases List.exists_cons_of_ne_nil (natDig_ne_nil (n / 10)) with ⟨c, cs, hcs⟩
      rw [hcs, List.cons_append] at h
      injection h with h1 h2
      simp at h2
    · simp [hm, hn] at h
      rcases List.exists_cons_of_ne_nil (natDig_ne_nil (m / 10)) with ⟨c, cs, hcs⟩
      rw [hcs, List.cons_append] at h
      injection h with h1 h2
      simp at h2
    · simp [hm, hn] at h
      have hrev := congrArg List.reverse h
      simp at hrev
      obtain ⟨hdig, hrest⟩ := hrev
      have h10 : 10 ≤ m := Nat.le_of_not_lt hm
      have hlt : m / 10 < m := Nat.div_lt_self (Nat.lt_of_lt_of_le (by decide) h10) (by decide)
      have hdiv : m / 10 = n / 10 := by
        have hr : natDig (m / 10) = natDig (n / 10) := by
          have := congrArg List.reverse hrest
          simpa using this
        exact ih (m / 10) hlt (n / 10) hr
      have hmod : m % 10 = n % 10 :=
        digitChar_inj (Nat.mod_lt m (by decide)) (Nat.mod_lt n (by decide)) hdig
      omega

/-! ## JSON values

Decoded JSON bodies, as `json.load` / `response.json()` produce them.
Objects keep their fields in insertion order, as Python dicts do. -/

mutual

inductive Json where
  | null : Json
  | bool (b : Bool) : Json
  | num (n : Int) : Json
  | str (s : String) : Json
  | arr (xs : JsonList) : Json
  | obj (kvs : JsonObj) : Json

inductive JsonList where
  | nil : JsonList
  | cons (hd : Json) (tl : JsonList) : JsonList

inductive JsonObj where
  | nil : JsonObj
  | cons (k : String) (v : Json) (tl : JsonObj) : JsonObj

end

/-- Keys of an object, in order. -/
def keysOf : JsonObj → List String
  | .nil => []
  | .cons k _ tl => k :: keysOf tl

/-! ## Python dict insertion semantics

`out[k] = v` and `out.update(d)` on Python dicts: an existing key keeps its
position and gets the new value, a new key is appended.  `flatten_json`
accumulates its entries into a dict, so path collisions overwrite. -/

/-- Python `out[k] = v` on an association list viewed as a dict. -/
def dIns {α : Type} (out : List (String × α)) (p : String × α) : List (String × α) :=
  if out.any (fun q => q.1 = p.1) then
    out.map (fun q => if q.1 = p.1 then p else q)
  else out ++ [p]

/-- Python `out.update(d)`: insert the entries of `d` in order. -/
def dUpdate {α : Type} (out d : List (String × α)) : List (String × α) :=
  d.foldl dIns out

/-! ## `flatten_json` (main.py lines 81-91)

The faithful embedding: each recursive call builds a fresh dict and the
parent merges it with `out.update(...)`.  `sep` is always the default
`"."` (no caller overrides it and the recursion passes it through). -/

/-- Path for an object member: `f"{parent}{sep}{k}" if parent else k`. -/
def childPath (parent k : String) : String :=
  if parent = "" then k else parent ++ "." ++ k

/-- Path for an array element: `f"{parent}[{i}]"`. -/
def indexPath (parent : String) (i : Nat) : String :=
  parent ++ "[" ++ natStr i ++ "]"

mutual

def flatten_json : Json → String → List (String × Json)
  | .arr xs, parent => flattenArrA xs parent 0 []
  | .obj kvs, parent => flattenObjA kvs parent []
  | j, parent => [(parent, j)]

def flattenObjA : JsonObj → String → List (String × Json) → List (String × Json)
  | .nil, _, out => out
  | .cons k v tl, parent, out =>
    flattenObjA tl parent (dUpdate out (flatten_json v (childPath parent k)))

def flattenArrA : JsonList → String → Nat → List (String × Json) → List (String × Json)
  | .nil, _, _, out => out
  | .cons x tl, parent, i, out =>
    flattenArrA tl parent (i + 1) (dUpdate out (flatten_json x (indexPath parent i)))

end

/-! ## The reference recursive flattening (spec §4.5)

`flattenRef` follows the spec's words: an ordered sequence of
`(path, scalar)` pairs, one per leaf, concatenated depth-first. -/

mutual

def flattenRef : Json → String → List (String × Json)
  | .arr xs, parent => flattenRefArr xs parent 0
  | .obj kvs, parent => flattenRefObj kvs parent
  | j, parent => [(parent, j)]

def flattenRefObj : JsonObj → String → List (String × Json)
  | .nil, _ => []
  | .cons k v tl, parent =>
    flattenRef v (childPath parent k) ++ flattenRefObj tl parent

def flattenRefArr : JsonList → String → Nat → List (String × Json)
  | .nil, _, _ => []
  | .cons x tl, parent, i =>
    flattenRef x (indexPath parent i) ++ flattenRefArr tl parent (i + 1)

end

/-! Number of scalar leaves of a JSON value. -/

mutual

def leafCount : Json → Nat
  | .arr xs => leafCountArr xs
  | .obj kvs => leafCountObj kvs
  | _ => 1

def leafCountObj : JsonObj → Nat
  | .nil => 0
  | .cons _ v tl => leafCount v + leafCountObj tl

def leafCountArr : JsonList → Nat
  | .nil => 0
  | .cons x tl => leafCount x + leafCountArr tl

end

/-! ## String plumbing -/

theorem data_append (a b : String) : (a ++ b).data = a.data ++ b.data := by
  cases a; cases b; rfl

theorem string_eq_iff_data {a b : String} : a = b ↔ a.data = b.data := by
  constructor
  · intro h; rw [h]
  · intro h; cases a; cases b; exact congrArg String.mk h

theorem string_empty_iff_data {a : String} : a = "" ↔ a.data = [] := string_eq_iff_data

/-! ## Path tokens

A leaf's structural position is a list of tokens; `renderPathC` renders it
to the character list of the path `flatten_json` builds for that leaf.
These are proof artifacts (not part of the embedding). -/

inductive Tok where
  | key (s : String)
  | idx (n : Nat)

/-- Rendering of a token list in non-initial position (a leading separator
before every key). -/
def renderTailC : List Tok → List Char
  | [] => []
  | .key s :: ts => '.' :: (s.data ++ renderTailC ts)
  | .idx n :: ts => '[' :: (natDig n ++ ']' :: renderTailC ts)

/-- Rendering of a token list starting from the empty parent path: the
first key gets no leading separator. -/
def renderPathC : List Tok → List Char
  | [] => []
  | .key s :: ts => s.data ++ renderTailC ts
  | .idx n :: ts => '[' :: (natDig n ++ ']' :: renderTailC ts)

/-! Token lists of the scalar leaves of a value, in emission order. -/

mutual

def toks : Json → List (List Tok)
  | .arr xs => toksArr xs 0
  | .obj kvs => toksObj kvs
  | _ => [[]]

def toksObj : JsonObj → List (List Tok)
  | .nil => []
  | .cons k v tl => (toks v).map (Tok.key k :: ·) ++ toksObj tl

def toksArr : JsonList → Nat → List (List Tok)
  | .nil, _ => []
  | .cons x tl, i => (toks x).map (Tok.idx i :: ·) ++ toksArr tl (i + 1)

end

/-- A key that cannot collide with the path syntax: non-empty and free of
the separator characters. -/
def cleanKey (s : String) : Bool :=
  !s.data.isEmpty && s.data.all (fun c => !(c == '.') && !(c == '[') && !(c == ']'))

def cleanToks : List Tok → Bool
  | [] => true
  | .key s :: ts => cleanKey s && cleanToks ts
  | .idx _ :: ts => cleanToks ts

/-! Values whose object keys are clean and distinct within each object. -/

mutual

def cleanJson : Json → Bool
  | .arr xs => cleanArr xs
  | .obj kvs => cleanObj kvs
  | _ => true

def cleanObj : JsonObj → Bool
  | .nil => true
  | .cons k v tl =>
    cleanKey k && cleanJson v && cleanObj tl && !((keysOf tl).contains k)

def cleanArr : JsonList → Bool
  | .nil => true
  | .cons x tl => cleanJson x && cleanArr tl

end

/-! ## Injectivity of path rendering on clean token lists -/

/-- The head of `r` (if any) fails `p`. -/
def headNot (p : Char → Bool) : List Char → Prop
  | [] => True
  | c :: _ => p c = false

theorem seg_cancel {p : Char → Bool} :
    ∀ (a1 a2 r1 r2 : List Char), (∀ c ∈ a1, p c = true) → (∀ c ∈ a2, p c = true) →
    headNot p r1 → headNot p r2 → a1 ++ r1 = a2 ++ r2 → a1 = a2 ∧ r1 = r2 := by
  intro a1
  induction a1 with
  | nil =>
    intro a2 r1 r2 _ ha2 hr1 hr2 h
    cases a2 with
    | nil => exact ⟨rfl, h⟩
    | cons c a2' =>
      simp at h
      rw [h] at hr1
      have hc := ha2 c (by simp)
      simp [headNot] at hr1
      simp [hc] at hr1
  | cons c a1' ih =>
    intro a2 r1 r2 ha1 ha2 hr1 hr2 h
    cases a2 with
    | nil =>
      simp at h
      rw [← h] at hr2
      have hc' := ha1 c (by simp)
      simp [headNot] at hr2
      simp [hc'] at hr2
    | cons d a2' =>
      simp at h
      obtain ⟨hcd, hrest⟩ := h
      have := ih a2' r1 r2 (fun x hx => ha1 x (by simp [hx])) (fun x hx => ha2 x (by simp [hx])) hr1 hr2 hrest
      exact ⟨by simp [hcd, this.1], this.2⟩

/-- Characters allowed inside a key segment, as a predicate for `seg_cancel`. -/
def segChar (c : Char) : Bool := !(c == '.') && !(c == '[')

theorem renderTailC_headNot (ts : List Tok) : headNot segChar (renderTailC ts) := by
  cases ts with
  | nil => trivial
  | cons t ts => cases t <;> simp [renderTailC, headNot, segChar]

theorem char_ne_of_toNat_range {c d : Char} (hr : 48 ≤ c.toNat ∧ c.toNat < 58)
    (hd : ¬(48 ≤ d.toNat ∧ d.toNat < 58)) : (c == d) = false := by
  by_contra h
  simp at h
  subst h
  exact hd hr

theorem natDig_no_sep : ∀ n, ∀ c ∈ natDig n, (c == ']') = false ∧ segChar c = true := by
  intro n c hc
  have hr := natDig_mem_range n c hc
  have h2 : (c == '.') = false := char_ne_of_toNat_range hr (by decide)
  have h3 : (c == '[') = false := char_ne_of_toNat_range hr (by decide)
  exact ⟨char_ne_of_toNat_range hr (by decide), by simp [segChar, h2, h3]⟩

theorem cleanKey_segChar {s : String} (h : cleanKey s = true) :
    ∀ c ∈ s.data, segChar c = true := by
  intro c hc
  simp [cleanKey, List.all_eq_true] at h
  have hx := h.2 c hc
  simp [segChar]
  tauto

theorem cleanKey_ne_nil {s : String} (h : cleanKey s = true) : s.data ≠ [] := by
  simp [cleanKey] at h
  exact h.1

theorem renderTailC_inj :
    ∀ ts1 ts2, cleanToks ts1 = true → cleanToks ts2 = true →
    renderTailC ts1 = renderTailC ts2 → ts1 = ts2 := by
  intro ts1
  induction ts1 with
  | nil =>
    intro ts2 _ h2 h
    cases ts2 with
    | nil => rfl
    | cons t ts => cases t <;> simp [renderTailC] at h
  | cons t ts ih =>
    intro ts2 h1 h2 h
    cases ts2 with
    | nil => cases t <;> simp [renderTailC] at h
    | cons u us =>
      cases t with
      | key s =>
        cases u with
        | key s' =>
          simp [cleanToks] at h1 h2
          simp [renderTailC] at h
          have hc := seg_cancel s.data s'.data (renderTailC ts) (renderTailC us)
            (cleanKey_segChar h1.1) (cleanKey_segChar h2.1)
            (renderTailC_headNot ts) (renderTailC_headNot us) h
          have hs : s = s' := string_eq_iff_data.mpr hc.1
          have hts : ts = us := ih us h1.2 h2.2 hc.2
          rw [hs, hts]
        | idx n => simp [renderTailC] at h
      | idx n =>
        cases u with
        | key s' => simp [renderTailC] at h
        | idx n' =>
          simp [cleanToks] at h1 h2
          simp [renderTailC] at h
          have hdig := @seg_cancel (fun c => !(c == ']')) (natDig n) (natDig n')
            (']' :: renderTailC ts) (']' :: renderTailC us)
            (fun c hc => by simp [(natDig_no_sep n c hc).1])
            (fun c hc => by simp [(natDig_no_sep n' c hc).1])
            (by simp [headNot]) (by simp [headNot]) h
          have hn : n = n' := natDig_inj _ _ hdig.1
          have htail : renderTailC ts = renderTailC us := by
            have h2' := hdig.2
            injection h2'
          have hts : ts = us := ih us h1 h2 htail
          rw [hn, hts]

theorem renderPathC_inj :
    ∀ ts1 ts2, cleanToks ts1 = true → cleanToks ts2 = true →
    renderPathC ts1 = renderPathC ts2 → ts1 = ts2 := by
  intro ts1 ts2 h1 h2 h
  cases ts1 with
  | nil =>
    cases ts2 with
    | nil => rfl
    | cons u us =>
      cases u with
      | key s' =>
        simp [cleanToks] at h2
        simp [renderPathC] at h
        have hne := cleanKey_ne_nil h2.1
        cases hs : s'.data with
        | nil => exact absurd hs hne
        | cons c cs => rw [hs] at h; simp at h
      | idx n' => simp [renderPathC] at h
  | cons t ts =>
    cases ts2 with
    | nil =>
      cases t with
      | key s =>
        simp [cleanToks] at h1
        simp [renderPathC] at h
        have hne := cleanKey_ne_nil h1.1
        cases hs : s.data with
        | nil => exact absurd hs hne
        | cons c cs => rw [hs] at h; simp at h
      | idx n => simp [renderPathC] at h
    | cons u us =>
      cases t with
      | key s =>
        cases u with
        | key s' =>
          simp [cleanToks] at h1 h2
          simp [renderPathC] at h
          have hc := seg_cancel s.data s'.data (renderTailC ts) (renderTailC us)
            (cleanKey_segChar h1.1) (cleanKey_segChar h2.1)
            (renderTailC_headNot ts) (renderTailC_headNot us) h
          rw [string_eq_iff_data.mpr hc.1, renderTailC_inj ts us h1.2 h2.2 hc.2]
        | idx n' =>
          simp [cleanToks] at h1
          simp [renderPathC] at h
          have hne := cleanKey_ne_nil h1.1
          cases hs : s.data with
          | nil => exact absurd hs hne
          | cons c cs =>
            rw [hs] at h
            simp at h
            have hseg := cleanKey_segChar h1.1 c (by rw [hs]; simp)
            rw [h.1] at hseg
            simp [segChar] at hseg
      | idx n =>
        cases u with
        | key s' =>
          simp [cleanToks] at h2
          simp [renderPathC] at h
          have hne := cleanKey_ne_nil h2.1
          cases hs : s'.data with
          | nil => exact absurd hs hne
          | cons c cs =>
            rw [hs] at h
            simp at h
            have hseg := cleanKey_segChar h2.1 c (by rw [hs]; simp)
            rw [← h.1] at hseg
            simp [segChar] at hseg
        | idx n' =>
          simp [cleanToks] at h1 h2
          simp [renderPathC] at h
          have hdig := @seg_cancel (fun c => !(c == ']')) (natDig n) (natDig n')
            (']' :: renderTailC ts) (']' :: renderTailC us)
            (fun c hc => by simp [(natDig_no_sep n c hc).1])
            (fun c hc => by simp [(natDig_no_sep n' c hc).1])
            (by simp [headNot]) (by simp [headNot]) h
          have hn : n = n' := natDig_inj _ _ hdig.1
          have htail : renderTailC ts = renderTailC us := by
            have h2' := hdig.2
            injection h2'
          rw [hn, renderTailC_inj ts us h1 h2 htail]

/-! ## Every token list emitted by `toks` is clean, and they are distinct -/

theorem mem_toksObj : ∀ kvs ts, ts ∈ toksObj kvs →
    ∃ k ts', ts = .key k :: ts' ∧ k ∈ keysOf kvs
  | .nil => by intro ts hts; simp [toksObj] at hts
  | .cons k v tl => by
    intro ts hts
    simp [toksObj] at hts
    rcases hts with ⟨base, _, rfl⟩ | hts
    · exact ⟨k, base, rfl, by simp [keysOf]⟩
    · obtain ⟨k', ts', heq, hmem⟩ := mem_toksObj tl ts hts
      exact ⟨k', ts', heq, by simp [keysOf, hmem]⟩

theorem mem_toksArr : ∀ xs i ts, ts ∈ toksArr xs i →
    ∃ m ts', ts = .idx m :: ts' ∧ i ≤ m
  | .nil => by intro i ts hts; simp [toksArr] at hts
  | .cons x tl => by
    intro i ts hts
    simp [toksArr] at hts
    rcases hts with ⟨base, _, rfl⟩ | hts
    · exact ⟨i, base, rfl, Nat.le_refl i⟩
    · obtain ⟨m, ts', heq, hmem⟩ := mem_toksArr tl (i + 1) ts hts
      exact ⟨m, ts', heq, Nat.le_of_succ_le hmem⟩

mutual

theorem toks_clean : ∀ j, cleanJson j = true → ∀ ts ∈ toks j, cleanToks ts = true
  | .null => by intro _ ts hts; simp [toks] at hts; simp [hts, cleanToks]
  | .bool b => by intro _ ts hts; simp [toks] at hts; simp [hts, cleanToks]
  | .num n => by intro _ ts hts; simp [toks] at hts; simp [hts, cleanToks]
  | .str s => by intro _ ts hts; simp [toks] at hts; simp [hts, cleanToks]
  | .arr xs => by
    intro h ts hts
    simp [cleanJson] at h
    exact toksArr_clean xs h 0 ts (by simpa [toks] using hts)
  | .obj kvs => by
    intro h ts hts
    simp [cleanJson] at h
    exact toksObj_clean kvs h ts (by simpa [toks] using hts)

theorem toksObj_clean : ∀ kvs, cleanObj kvs = true → ∀ ts ∈ toksObj kvs, cleanToks ts = true
  | .nil => by intro _ ts hts; simp [toksObj] at hts
  | .cons k v tl => by
    intro h ts hts
    simp [cleanObj] at h
    obtain ⟨⟨⟨hk, hv⟩, htl⟩, _⟩ := h
    simp [toksObj] at hts
    rcases hts with ⟨base, hbase, rfl⟩ | hts
    · simp [cleanToks, hk]
      exact toks_clean v hv base hbase
    · exact toksObj_clean tl htl ts hts

theorem toksArr_clean : ∀ xs, cleanArr xs = true → ∀ i, ∀ ts ∈ toksArr xs i, cleanToks ts = true
  | .nil => by intro _ i ts hts; simp [toksArr] at hts
  | .cons x tl => by
    intro h i ts hts
    simp [cleanArr] at h
    simp [toksArr] at hts
    rcases hts with ⟨base, hbase, rfl⟩ | hts
    · simp [cleanToks]
      exact toks_clean x h.1 base hbase
    · exact toksArr_clean tl h.2 (i + 1) ts hts

end

mutual

theorem toks_nodup : ∀ j, cleanJson j = true → (toks j).Nodup
  | .null => by intro _; simp [toks]
  | .bool b => by intro _; simp [toks]
  | .num n => by intro _; simp [toks]
  | .str s => by intro _; simp [toks]
  | .arr xs => by
    intro h
    simp [cleanJson] at h
    simpa [toks] using toksArr_nodup xs h 0
  | .obj kvs => by
    intro h
    simp [cleanJson] at h
    simpa [toks] using toksObj_nodup kvs h

theorem toksObj_nodup : ∀ kvs, cleanObj kvs = true → (toksObj kvs).Nodup
  | .nil => by intro _; simp [toksObj]
  | .cons k v tl => by
    intro h
    simp [cleanObj] at h
    obtain ⟨⟨⟨hk, hv⟩, htl⟩, hdup⟩ := h
    rw [toksObj]
    apply List.Nodup.append
    · apply List.Nodup.map_on
      · intro x _ y _ hxy
        injection hxy
      · exact toks_nodup v hv
    · exact toksObj_nodup tl htl
    · intro ts hts1 hts2
      simp at hts1
      obtain ⟨base, _, rfl⟩ := hts1
      obtain ⟨k', ts', heq, hmem⟩ := mem_toksObj tl _ hts2
      have hkk : k = k' := by
        injection heq with h1 h2
        injection h1
      rw [hkk] at hdup
      exact hdup hmem

theorem toksArr_nodup : ∀ xs, cleanArr xs = true → ∀ i, (toksArr xs i).Nodup
  | .nil => by intro _ i; simp [toksArr]
  | .cons x tl => by
    intro h i
    simp [cleanArr] at h
    rw [toksArr]
    apply List.Nodup.append
    · apply List.Nodup.map_on
      · intro a _ b _ hab
        injection hab
      · exact toks_nodup x h.1
    · exact toksArr_nodup tl h.2 (i + 1)
    · intro ts hts1 hts2
      simp at hts1
      obtain ⟨base, _, rfl⟩ := hts1
      obtain ⟨m, ts', heq, hmem⟩ := mem_toksArr tl _ _ hts2
      have him : i = m := by
        injection heq with h1 h2
        injection h1
      omega

end

/-! ## The paths of the reference flattening are rendered token lists -/

/-- Path of a leaf with token list `ts` reached from parent path `p`. -/
def extendC (p : List Char) (ts : List Tok) : List Char :=
  if p = [] then renderPathC ts else p ++ renderTailC ts

theorem data_dot : ("." : String).data = ['.'] := rfl

theorem data_lbrack : ("[" : String).data = ['['] := rfl

theorem data_rbrack : ("]" : String).data = [']'] := rfl

theorem data_empty : ("" : String).data = [] := rfl

theorem natStr_data (n : Nat) : (natStr n).data = natDig n := rfl

theorem extendC_key (p k : String) (hk : k.data ≠ []) (ts : List Tok) :
    extendC (childPath p k).data ts = extendC p.data (.key k :: ts) := by
  by_cases hp : p = ""
  · subst hp
    simp [childPath, extendC, hk, renderPathC, data_empty]
  · have hpd : p.data ≠ [] := fun hd => hp (string_eq_iff_data.mpr hd)
    have hcd : (childPath p k).data = p.data ++ ('.' :: k.data) := by
      unfold childPath
      rw [if_neg hp, data_append, data_append, data_dot]
      simp
    rw [hcd]
    simp [extendC, hpd, renderTailC]

theorem extendC_idx (p : String) (i : Nat) (ts : List Tok) :
    extendC (indexPath p i).data ts = extendC p.data (.idx i :: ts) := by
  have hcd : (indexPath p i).data = p.data ++ ('[' :: (natDig i ++ [']'])) := by
    unfold indexPath
    rw [data_append, data_append, data_append, data_lbrack, data_rbrack, natStr_data]
    simp
  rw [hcd]
  by_cases hp : p = ""
  · subst hp
    simp [extendC, renderPathC, data_empty]
  · have hpd : p.data ≠ [] := fun hd => hp (string_eq_iff_data.mpr hd)
    simp [extendC, hpd, renderTailC]

mutual

theorem ref_paths : ∀ j, cleanJson j = true → ∀ p : String,
    (flattenRef j p).map (fun pr => pr.1.data) = (toks j).map (extendC p.data)
  | .null => by
    intro _ p
    by_cases hp : p.data = [] <;> simp [flattenRef, toks, extendC, renderPathC, renderTailC, hp]
  | .bool b => by
    intro _ p
    by_cases hp : p.data = [] <;> simp [flattenRef, toks, extendC, renderPathC, renderTailC, hp]
  | .num n => by
    intro _ p
    by_cases hp : p.data = [] <;> simp [flattenRef, toks, extendC, renderPathC, renderTailC, hp]
  | .str s => by
    intro _ p
    by_cases hp : p.data = [] <;> simp [flattenRef, toks, extendC, renderPathC, renderTailC, hp]
  | .arr xs => by
    intro h p
    simp [cleanJson] at h
    simpa [flattenRef, toks] using ref_paths_arr xs h p 0
  | .obj kvs => by
    intro h p
    simp [cleanJson] at h
    simpa [flattenRef, toks] using ref_paths_obj kvs h p

theorem ref_paths_obj : ∀ kvs, cleanObj kvs = true → ∀ p : String,
    (flattenRefObj kvs p).map (fun pr => pr.1.data) = (toksObj kvs).map (extendC p.data)
  | .nil => by intro _ p; simp [flattenRefObj, toksObj]
  | .cons k v tl => by
    intro h p
    simp [cleanObj] at h
    obtain ⟨⟨⟨hk, hv⟩, htl⟩, _⟩ := h
    rw [flattenRefObj, toksObj]
    rw [List.map_append, List.map_append, List.map_map]
    rw [ref_paths v hv (childPath p k), ref_paths_obj tl htl p]
    congr 1
    apply List.map_congr_left
    intro ts _
    exact extendC_key p k (cleanKey_ne_nil hk) ts

theorem ref_paths_arr : ∀ xs, cleanArr xs = true → ∀ (p : String) (i : Nat),
    (flattenRefArr xs p i).map (fun pr => pr.1.data) = (toksArr xs i).map (extendC p.data)
  | .nil => by intro _ p i; simp [flattenRefArr, toksArr]
  | .cons x tl => by
    intro h p i
    simp [cleanArr] at h
    rw [flattenRefArr, toksArr]
    rw [List.map_append, List.map_append, List.map_map]
    rw [ref_paths x h.1 (indexPath p i), ref_paths_arr tl h.2 p (i + 1)]
    congr 1
    apply List.map_congr_left
    intro ts _
    exact extendC_idx p i ts

end

/-- Clean values give pairwise-distinct reference paths. -/
theorem ref_paths_nodup {j : Json} (h : cleanJson j = true) :
    ((flattenRef j "").map Prod.fst).Nodup := by
  have hR := ref_paths j h ""
  have h1 : (flattenRef j "").map (fun pr => pr.1.data) = (toks j).map renderPathC := by
    rw [hR]
    apply List.map_congr_left
    intro ts _
    simp [extendC, data_empty]
  have h2 : ((toks j).map renderPathC).Nodup := by
    apply List.Nodup.map_on
    · intro x hx y hy hxy
      exact renderPathC_inj x y (toks_clean j h x hx) (toks_clean j h y hy) hxy
    · exact toks_nodup j h
  rw [← h1] at h2
  have h3 : (flattenRef j "").map (fun pr => pr.1.data)
      = ((flattenRef j "").map Prod.fst).map String.data := by
    simp [List.map_map]
  rw [h3] at h2
  exact List.Nodup.of_map String.data h2

/-! ## When paths are distinct, the dict accumulation is plain append -/

theorem dIns_not_mem {α : Type} (out : List (String × α)) (p : String × α)
    (h : p.1 ∉ out.map Prod.fst) : dIns out p = out ++ [p] := by
  have hfalse : (out.any fun q => q.1 = p.1) ≠ true := by
    intro htrue
    rw [List.any_eq_true] at htrue
    obtain ⟨q, hq, hEq⟩ := htrue
    have hq1 : q.1 = p.1 := of_decide_eq_true hEq
    exact h (List.mem_map.mpr ⟨q, hq, hq1⟩)
  simp [dIns, hfalse]

theorem dUpdate_append {α : Type} : ∀ (d out : List (String × α)),
    (d.map Prod.fst).Nodup → (∀ x ∈ out.map Prod.fst, x ∉ d.map Prod.fst) →
    dUpdate out d = out ++ d := by
  intro d
  induction d with
  | nil => intro out _ _; simp [dUpdate]
  | cons p d' ih =>
    intro out hnd hdisj
    rw [List.map_cons, List.nodup_cons] at hnd
    have hk : p.1 ∉ out.map Prod.fst := fun hmem => hdisj p.1 hmem (by simp)
    have step : dUpdate out (p :: d') = dUpdate (out ++ [p]) d' := by
      simp [dUpdate, dIns_not_mem out p hk]
    have hdisj' : ∀ x ∈ (out ++ [p]).map Prod.fst, x ∉ d'.map Prod.fst := by
      intro x hx
      rw [List.map_append] at hx
      rcases List.mem_append.mp hx with hx | hx
      · intro hmem
        exact hdisj x hx (by simp [hmem])
      · simp at hx
        rw [hx]
        exact hnd.1
    rw [step, ih (out ++ [p]) hnd.2 hdisj']
    simp

mutual

theorem flatten_eq_ref : ∀ j p, ((flattenRef j p).map Prod.fst).Nodup →
    flatten_json j p = flattenRef j p
  | .null => by intro p _; rfl
  | .bool b => by intro p _; rfl
  | .num n => by intro p _; rfl
  | .str s => by intro p _; rfl
  | .arr xs => by
    intro p hnd
    rw [flatten_json, flattenRef]
    rw [flattenRef] at hnd
    exact flatten_eq_ref_arr xs p 0 [] hnd (by simp)
  | .obj kvs => by
    intro p hnd
    rw [flatten_json, flattenRef]
    rw [flattenRef] at hnd
    exact flatten_eq_ref_obj kvs p [] hnd (by simp)

theorem flatten_eq_ref_obj : ∀ kvs p out, ((flattenRefObj kvs p).map Prod.fst).Nodup →
    (∀ x ∈ out.map Prod.fst, x ∉ (flattenRefObj kvs p).map Prod.fst) →
    flattenObjA kvs p out = out ++ flattenRefObj kvs p
  | .nil => by intro p out _ _; simp [flattenObjA, flattenRefObj]
  | .cons k v tl => by
    intro p out hnd hdisj
    rw [flattenRefObj] at hnd hdisj ⊢
    rw [List.map_append, List.nodup_append] at hnd
    obtain ⟨hndA, hndB, hAB⟩ := hnd
    rw [flattenObjA]
    rw [flatten_eq_ref v (childPath p k) hndA]
    rw [dUpdate_append _ _ hndA (fun x hx hmem => hdisj x hx (by simp [hmem]))]
    have hds : ∀ x ∈ (out ++ flattenRef v (childPath p k)).map Prod.fst,
        x ∉ (flattenRefObj tl p).map Prod.fst := by
      intro x hx
      rw [List.map_append] at hx
      rcases List.mem_append.mp hx with hx | hx
      · exact fun hmem => hdisj x hx (by simp [hmem])
      · exact fun hmem => hAB hx hmem
    rw [flatten_eq_ref_obj tl p (out ++ flattenRef v (childPath p k)) hndB hds]
    simp

theorem flatten_eq_ref_arr : ∀ xs p i out, ((flattenRefArr xs p i).map Prod.fst).Nodup →
    (∀ x ∈ out.map Prod.fst, x ∉ (flattenRefArr xs p i).map Prod.fst) →
    flattenArrA xs p i out = out ++ flattenRefArr xs p i
  | .nil => by intro p i out _ _; simp [flattenArrA, flattenRefArr]
  | .cons x tl => by
    intro p i out hnd hdisj
    rw [flattenRefArr] at hnd hdisj ⊢
    rw [List.map_append, List.nodup_append] at hnd
    obtain ⟨hndA, hndB, hAB⟩ := hnd
    rw [flattenArrA]
    rw [flatten_eq_ref x (indexPath p i) hndA]
    rw [dUpdate_append _ _ hndA (fun y hy hmem => hdisj y hy (by simp [hmem]))]
    have hds : ∀ y ∈ (out ++ flattenRef x (indexPath p i)).map Prod.fst,
        y ∉ (flattenRefArr tl p (i + 1)).map Prod.fst := by
      intro y hy
      rw [List.map_append] at hy
      rcases List.mem_append.mp hy with hy | hy
      · exact fun hmem => hdisj y hy (by simp [hmem])
      · exact fun hmem => hAB hy hmem
    rw [flatten_eq_ref_arr tl p (i + 1) (out ++ flattenRef x (indexPath p i)) hndB hds]
    simp

end

/-! The reference flattening emits one entry per scalar leaf. -/

mutual

theorem ref_length : ∀ j p, (flattenRef j p).length = leafCount j
  | .null => by intro p; rfl
  | .bool b => by intro p; rfl
  | .num n => by intro p; rfl
  | .str s => by intro p; rfl
  | .arr xs => by
    intro p
    rw [flattenRef, leafCount]
    exact ref_length_arr xs p 0
  | .obj kvs => by
    intro p
    rw [flattenRef, leafCount]
    exact ref_length_obj kvs p

theorem ref_length_obj : ∀ kvs p, (flattenRefObj kvs p).length = leafCountObj kvs
  | .nil => by intro p; rfl
  | .cons k v tl => by
    intro p
    rw [flattenRefObj, leafCountObj]
    simp [ref_length v, ref_length_obj tl p]

theorem ref_length_arr : ∀ xs (p : String) (i : Nat),
    (flattenRefArr xs p i).length = leafCountArr xs
  | .nil => by intro p i; rfl
  | .cons x tl => by
    intro p i
    rw [flattenRefArr, leafCountArr]
    simp [ref_length x, ref_length_arr tl p (i + 1)]

end

/-! ## Endpoint catalog and fetch client (main.py lines 31-79)

Network and log I/O are oracles: an `HttpOutcome` is what `requests.get`
did for this call (raised, or returned a response whose body may or may
not decode), and `logExc` is whether the append inside `log_error`
raised.  `Except.error` is a Python exception escaping `fetch_data`. -/

def BASE_URL : String := "https://liveiqfranchiseeapi.subway.com"

def ENDPOINTS : List (String × String) :=
  [("Sales Summary", "/api/SalesSummary/{restaurantNumbers}/startDate/{startDate}/endDate/{endDate}"),
   ("Daily Sales Summary", "/api/DailySalesSummary/{restaurantNumbers}/startDate/{startDate}/endDate/{endDate}"),
   ("Daily Timeclock", "/api/DailyTimeclock/{restaurantNumbers}/startDate/{startDate}/endDate/{endDate}"),
   ("Third Party Sales Summary", "/api/ThirdPartySalesSummary/{restaurantNumbers}/startDate/{startDate}/endDate/{endDate}"),
   ("Third Party Transaction Summary", "/api/ThirdPartyTransactionSummary/{restaurantNumbers}/startDate/{startDate}/endDate/{endDate}"),
   ("Transaction Summary", "/api/TransactionSummary/{restaurantNumbers}/startDate/{startDate}/endDate/{endDate}"),
   ("Transaction Details", "/api/TransactionDetails/{restaurantNumbers}/startDate/{startDate}/endDate/{endDate}")]

def lookupTbl : List (String × String) → String → Option String
  | [], _ => none
  | (k, v) :: tl, key => if key = k then some v else lookupTbl tl key

/-- `ENDPOINTS[ep].format(restaurantNumbers=sid, startDate=start, endDate=end)`. -/
def formatPath (tpl sid start stop : String) : String :=
  ((tpl.replace "{restaurantNumbers}" sid).replace "{startDate}" start).replace "{endDate}" stop

/-- Result of `r.json()`: a decoded value, or a `JSONDecodeError` whose
rendering is `f"{msg}: line {line} column {col} (char {pos})"`. -/
inductive JsonDecodeRes where
  | ok (j : Json)
  | fail (msg : String) (line col pos : Nat)

structure HttpResp where
  status : Nat
  reason : String
  body : JsonDecodeRes

/-- What `requests.get` did: raised a transport exception, or returned. -/
inductive HttpOutcome where
  | exn (msg : String)
  | resp (r : HttpResp)

def decodeErrStr (m : String) (line col pos : Nat) : String :=
  m ++ ": line " ++ natStr line ++ " column " ++ natStr col ++ " (char " ++ natStr pos ++ ")"

/-- Rendering of the `HTTPError` that `raise_for_status` raises for a
4xx/5xx status (it raises for no other status). -/
def raiseForStatusMsg (r : HttpResp) (url : String) : String :=
  natStr r.status ++ (if r.status < 500 then " Client Error: " else " Server Error: ")
    ++ r.reason ++ " for url: " ++ url

/-- The value `fetch_data` returns on a caught failure: `{"error": str(exc)}`. -/
def errObj (m : String) : Json := Json.obj (.cons "error" (Json.str m) .nil)

def hasErrorKey : Json → Bool
  | .obj kvs => (keysOf kvs).contains "error"
  | _ => false

/-- `fetch_data` (main.py lines 66-79).  The `ENDPOINTS[ep]` lookup sits
before the `try`, so an unknown report name raises `KeyError`; inside the
`try` every exception is caught, logged via `log_error` (which has no
guard of its own, so a failing append re-raises), and turned into
`{"error": str(exc)}`. -/
def fetch_data (ep sid start stop cid ckey : String)
    (net : HttpOutcome) (logExc : Option String) : Except String Json :=
  match lookupTbl ENDPOINTS ep with
  | none => .error ("KeyError: " ++ ep)
  | some tpl =>
    let url := BASE_URL ++ formatPath tpl sid start stop
    let onFail := fun (m : String) =>
      match logExc with
      | some e => (.error e : Except String Json)
      | none => .ok (errObj m)
    match net with
    | .exn m => onFail m
    | .resp r =>
      if 400 ≤ r.status ∧ r.status < 600 then onFail (raiseForStatusMsg r url)
      else
        match r.body with
        | .fail m line col pos => onFail (decodeErrStr m line col pos)
        | .ok j => .ok j

/-- One batch: each request is an independent `fetch_data` call on its own
worker; no call sees another's outcome. -/
structure FetchCall where
  ep : String
  sid : String
  start : String
  stop : String
  cid : String
  ckey : String
  net : HttpOutcome
  logExc : Option String

def runBatch (reqs : List FetchCall) : List (Except String Json) :=
  reqs.map fun q => fetch_data q.ep q.sid q.start q.stop q.cid q.ckey q.net q.logExc

/-! ## Directory bootstrap (main.py lines 94-173)

A config entry is a dict that may be missing required fields; the
`/api/Restaurants` call for an entry is an oracle `DiscRes` paired with
it.  `runLoad` folds the per-entry processing over the file's entries,
producing `account_store_map`, `all_stores`, `config_accounts` and the
diagnostic log. -/

structure RawAcct where
  name : Option String
  clientID : Option String
  clientKEY : Option String

/-- A config dict after the loop: `Status` / `StoreIDs` are present only
if the corresponding assignment ran. -/
structure Acct where
  name : Option String
  clientID : Option String
  clientKEY : Option String
  status : Option String
  storeIDs : Option (List String)

/-- Outcome of the store-listing call: the decoded record list (each
record's `restaurantNumber`, if it has one), or any raised exception
(transport, `raise_for_status`, JSON decode, bad shape — all are caught
by the same `except`). -/
inductive DiscRes where
  | ok (records : List (Option String))
  | err (msg : String)

inductive LogEvent where
  | malformedEntry (a : RawAcct)
  | storeFetchFailed (name msg : String)

structure LoadState where
  accountStoreMap : List (String × List String)
  allStores : List String
  configAccounts : List Acct
  log : List LogEvent

def validAcct (e : RawAcct) : Bool :=
  e.name.isSome && e.clientID.isSome && e.clientKEY.isSome

/-- Python `set.add` over a list representation. -/
def insertNew (l : List String) (x : String) : List String :=
  if x ∈ l then l else l ++ [x]

/-- Python `all_stores.update(stores)`. -/
def unionList (l xs : List String) : List String := xs.foldl insertNew l

/-- The mutated account dict an entry ends up as. -/
def procAcct : RawAcct × DiscRes → Acct
  | (e, d) =>
    if validAcct e then
      match d with
      | .ok records =>
        let stores := records.filterMap id
        ⟨e.name, e.clientID, e.clientKEY, some (if stores.isEmpty then "EMPTY" else "OK"),
          some stores⟩
      | .err _ => ⟨e.name, e.clientID, e.clientKEY, some "ERROR", none⟩
    else ⟨e.name, e.clientID, e.clientKEY, none, none⟩

def loadStep (st : LoadState) (ed : RawAcct × DiscRes) : LoadState :=
  if validAcct ed.1 then
    match ed.2 with
    | .ok records =>
      let stores := records.filterMap id
      { accountStoreMap := dIns st.accountStoreMap (ed.1.name.getD "", stores),
        allStores := unionList st.allStores stores,
        configAccounts := st.configAccounts ++ [procAcct ed],
        log := st.log }
    | .err m =>
      { st with configAccounts := st.configAccounts ++ [procAcct ed],
                log := st.log ++ [.storeFetchFailed (ed.1.name.getD "") m] }
  else
    { st with configAccounts := st.configAccounts ++ [procAcct ed],
              log := st.log ++ [.malformedEntry ed.1] }

def initState : LoadState := ⟨[], [], [], []⟩

def runLoad (entries : List (RawAcct × DiscRes)) : LoadState :=
  entries.foldl loadStep initState

/-- The template written when `config.json` is absent (lines 108-129). -/
def placeholderID : String := "INSERT CLIENT ID HERE"

def placeholderKEY : String := "INSERT CLIENT KEY HERE"

def defaultCfg : List RawAcct :=
  [⟨some "Franchisee A", some placeholderID, some placeholderKEY⟩,
   ⟨some "Franchisee B", some placeholderID, some placeholderKEY⟩,
   ⟨some "Franchisee C", some placeholderID, some placeholderKEY⟩]

inductive LoadOutcome where
  | halted (written : List RawAcct)
  | loaded (st : LoadState)

/-- `load_config_and_stores`: `none` is a missing `config.json`, in which
case the template is written and `SystemExit` is raised before any
account processing. -/
def load_config_and_stores (cfgFile : Option (List (RawAcct × DiscRes))) : LoadOutcome :=
  match cfgFile with
  | none => .halted defaultCfg
  | some entries => .loaded (runLoad entries)

/-! ## The dispatch loop of `open_view_window` (main.py lines 220-228)

`for acct in config_accounts:` reads `acct["ClientID"]`,
`acct["ClientKEY"]`, `acct["Name"]` unguarded (left to right), then
submits one fetch per store id that is selected and not yet fetched.
The result is the submitted `(account_name, store_id)` list plus the
`KeyError` that aborted the loop, if one did. -/

def acctCreds (a : Acct) : Except String (String × String × String) :=
  match a.clientID with
  | none => .error "KeyError: ClientID"
  | some cid =>
    match a.clientKEY with
    | none => .error "KeyError: ClientKEY"
    | some ckey =>
      match a.name with
      | none => .error "KeyError: Name"
      | some an => .ok (cid, ckey, an)

def submitInner (aname : String) : List String → List String → List String →
    List (String × String) × List String
  | [], _, fetched => ([], fetched)
  | sid :: rest, stores, fetched =>
    if sid ∈ stores ∧ sid ∉ fetched then
      let r := submitInner aname rest stores (fetched ++ [sid])
      ((aname, sid) :: r.1, r.2)
    else submitInner aname rest stores fetched

def submitAll : List Acct → List String → List String →
    List (String × String) × Option String
  | [], _, _ => ([], none)
  | a :: rest, stores, fetched =>
    match acctCreds a with
    | .error e => ([], some e)
    | .ok (_, _, aname) =>
      let r := submitInner aname (a.storeIDs.getD []) stores fetched
      let r' := submitAll rest stores r.2
      (r.1 ++ r'.1, r'.2)

/-- The `account_vars` initialisation loop of `build_gui` (lines 477-481):
`tk.IntVar(value=1 if acct["Status"] == "OK" else 0)` is evaluated before
the `account_vars[acct["Name"]]` assignment. -/
def buildAccountVars : List Acct → Except String (List (String × Bool))
  | [] => .ok []
  | a :: rest =>
    match a.status with
    | none => .error "KeyError: Status"
    | some st =>
      match a.name with
      | none => .error "KeyError: Name"
      | some n =>
        match buildAccountVars rest with
        | .error e => .error e
        | .ok l => .ok ((n, st == "OK") :: l)

/-! ## Consumers of a fetch result (main.py lines 230-244 and the two
modules' `run` loops): Python `in`, `[]` and `.get` on a decoded value. -/

def jLookup : JsonObj → String → Option Json
  | .nil, _ => none
  | .cons k v tl, key => if k = key then some v else jLookup tl key

mutual

def jsonBEq : Json → Json → Bool
  | .null, .null => true
  | .bool a, .bool b => a == b
  | .num a, .num b => a == b
  | .str a, .str b => a == b
  | .arr a, .arr b => jsonListBEq a b
  | .obj a, .obj b => jsonObjBEq a b
  | _, _ => false

def jsonListBEq : JsonList → JsonList → Bool
  | .nil, .nil => true
  | .cons x xs, .cons y ys => jsonBEq x y && jsonListBEq xs ys
  | _, _ => false

def jsonObjBEq : JsonObj → JsonObj → Bool
  | .nil, .nil => true
  | .cons k v tl, .cons k' v' tl' => k == k' && jsonBEq v v' && jsonObjBEq tl tl'
  | _, _ => false

end

def jsonListAny : JsonList → (Json → Bool) → Bool
  | .nil, _ => false
  | .cons x tl, p => p x || jsonListAny tl p

def jsonListToList : JsonList → List Json
  | .nil => []
  | .cons x tl => x :: jsonListToList tl

/-- Python `needle in res` for a decoded JSON value: key membership on a
dict, element equality on a list, substring on a string, `TypeError`
otherwise. -/
def pyIn (needle : String) : Json → Except String Bool
  | .obj kvs => .ok ((keysOf kvs).contains needle)
  | .arr xs => .ok (jsonListAny xs (fun x => jsonBEq x (Json.str needle)))
  | .str s => .ok (decide (List.IsInfix needle.data s.data))
  | _ => .error "TypeError: argument is not iterable"

/-- Python `res[key]`. -/
def pySubscript : Json → String → Except String Json
  | .obj kvs, key =>
    match jLookup kvs key with
    | some v => .ok v
    | none => .error ("KeyError: " ++ key)
  | _, _ => .error "TypeError: invalid subscript"

/-- Python `res.get(key, default)` — a dict method, so any non-dict
raises `AttributeError`. -/
def pyGet : Json → String → Json → Except String Json
  | .obj kvs, key, dflt => .ok ((jLookup kvs key).getD dflt)
  | _, _, _ => .error "AttributeError: no attribute get"

inductive ViewOut where
  | failure (msg : Json)
  | payload (p : Json)

/-- `open_view_window`'s handling of one completed result (lines 233-236):
`if "error" in res: write ERROR; continue` else unwrap the `data`
envelope. -/
def viewHandle (res : Json) : Except String ViewOut := do
  let b ← pyIn "error" res
  if b then
    let v ← pySubscript res "error"
    pure (.failure v)
  else
    let p ← pyGet res "data" res
    pure (.payload p)

inductive SalesEntry where
  | err (v : Json)
  | val (x : Json)
  | na

def salesKeys : List String := ["netSales", "netSale", "netSalesTotal", "netSalesAmount"]

def salesLookup (summary : Json) : List String → Except String SalesEntry
  | [] => .ok .na
  | k :: rest => do
    let b ← pyIn k summary
    if b then
      let v ← pySubscript summary k
      pure (.val v)
    else salesLookup summary rest

/-- `Sales Today.py` lines 68-91: one store's entry in `sales_map`. -/
def salesHandle (result : Json) : Except String SalesEntry := do
  let b ← pyIn "error" result
  if b then
    let v ← pySubscript result "error"
    pure (.err v)
  else
    let data ← pyGet result "data" result
    let summary : Json :=
      match data with
      | .arr (.cons x _) => x
      | .obj kvs => .obj kvs
      | _ => .obj .nil
    salesLookup summary salesKeys

inductive LaborOut where
  | err (v : Json)
  | records (rs : List Json)

/-- `Labor Today.py` lines 68-77: the error branch, or the record list
`data or []` that the clock-in display iterates (a dict is wrapped into
a one-element list; iterating a string yields its characters; a truthy
non-iterable raises `TypeError`). -/
def laborHandle (result : Json) : Except String LaborOut := do
  let b ← pyIn "error" result
  if b then
    let v ← pySubscript result "error"
    pure (.err v)
  else
    let data ← pyGet result "data" result
    match data with
    | .obj kvs => pure (.records [Json.obj kvs])
    | .arr xs => pure (.records (jsonListToList xs))
    | .null => pure (.records [])
    | .bool false => pure (.records [])
    | .bool true => .error "TypeError: bool is not iterable"
    | .num n => if n = 0 then pure (.records []) else .error "TypeError: int is not iterable"
    | .str s => pure (.records (s.data.map (fun c => Json.str ⟨[c]⟩)))

/-! ## Bootstrap lemmas -/

theorem mem_insertNew {l : List String} {x y : String} :
    x ∈ insertNew l y ↔ x ∈ l ∨ x = y := by
  unfold insertNew
  by_cases h : y ∈ l
  · simp [h]
    intro heq
    rw [heq]
    exact h
  · simp [h]

theorem mem_unionList : ∀ (xs l : List String) (x : String),
    x ∈ unionList l xs ↔ x ∈ l ∨ x ∈ xs := by
  intro xs
  induction xs with
  | nil => intro l x; simp [unionList]
  | cons y ys ih =>
    intro l x
    have : unionList l (y :: ys) = unionList (insertNew l y) ys := rfl
    rw [this, ih, mem_insertNew]
    simp [or_assoc]

theorem foldl_accounts : ∀ (es : List (RawAcct × DiscRes)) (st : LoadState),
    (es.foldl loadStep st).configAccounts = st.configAccounts ++ es.map procAcct := by
  intro es
  induction es with
  | nil => intro st; simp
  | cons ed rest ih =>
    intro st
    rw [List.foldl_cons, ih, List.map_cons]
    have hstep : (loadStep st ed).configAccounts = st.configAccounts ++ [procAcct ed] := by
      obtain ⟨e, d⟩ := ed
      by_cases hv : validAcct e
      · cases d <;> simp [loadStep, hv]
      · simp [loadStep, hv]
    rw [hstep]
    simp

theorem runLoad_accounts (es : List (RawAcct × DiscRes)) :
    (runLoad es).configAccounts = es.map procAcct := by
  rw [runLoad, foldl_accounts]
  rfl

/-- The pair of outputs an entry can contribute to: `all_stores` and
`account_store_map`. -/
def projState (st : LoadState) : List String × List (String × List String) :=
  (st.allStores, st.accountStoreMap)

theorem loadStep_proj_cong {st1 st2 : LoadState} (h : projState st1 = projState st2)
    (ed : RawAcct × DiscRes) : projState (loadStep st1 ed) = projState (loadStep st2 ed) := by
  obtain ⟨e, d⟩ := ed
  have h1 : st1.allStores = st2.allStores := congrArg Prod.fst h
  have h2 : st1.accountStoreMap = st2.accountStoreMap := congrArg Prod.snd h
  by_cases hv : validAcct e
  · cases d <;> simp [loadStep, hv, projState, h1, h2]
  · simp [loadStep, hv, projState, h1, h2]

theorem foldl_proj_cong : ∀ (es : List (RawAcct × DiscRes)) (st1 st2 : LoadState),
    projState st1 = projState st2 →
    projState (es.foldl loadStep st1) = projState (es.foldl loadStep st2) := by
  intro es
  induction es with
  | nil => intro st1 st2 h; simpa using h
  | cons ed rest ih =>
    intro st1 st2 h
    rw [List.foldl_cons, List.foldl_cons]
    exact ih _ _ (loadStep_proj_cong h ed)

/-- A failing discovery call, or a malformed entry, leaves `all_stores`
and `account_store_map` untouched. -/
theorem loadStep_proj_skip {st : LoadState} {e : RawAcct} {d : DiscRes}
    (h : validAcct e = false ∨ ∃ m, d = .err m) :
    projState (loadStep st (e, d)) = projState st := by
  rcases h with h | ⟨m, rfl⟩
  · simp [loadStep, h, projState]
  · by_cases hv : validAcct e <;> simp [loadStep, hv, projState]

theorem runLoad_skip_entry {pre post : List (RawAcct × DiscRes)} {e : RawAcct} {d : DiscRes}
    (h : validAcct e = false ∨ ∃ m, d = .err m) :
    projState (runLoad (pre ++ (e, d) :: post)) = projState (runLoad (pre ++ post)) := by
  unfold runLoad
  rw [List.foldl_append, List.foldl_append, List.foldl_cons]
  exact foldl_proj_cong post _ _ (loadStep_proj_skip h)

/-- Invariant tying `all_stores` to the accounts' `StoreIDs` lists. -/
def StoresInv (st : LoadState) : Prop :=
  (∀ sid, sid ∈ st.allStores ↔ ∃ a ∈ st.configAccounts, sid ∈ a.storeIDs.getD []) ∧
  (∀ a ∈ st.configAccounts, ∀ sids, a.storeIDs = some sids →
    (a.status = some "OK" ∨ a.status = some "EMPTY"))

theorem procAcct_ok {e : RawAcct} {records : List (Option String)} (hv : validAcct e = true) :
    procAcct (e, .ok records) =
      ⟨e.name, e.clientID, e.clientKEY,
        some (if (records.filterMap id).isEmpty then "EMPTY" else "OK"),
        some (records.filterMap id)⟩ := by
  simp [procAcct, hv]

theorem procAcct_err {e : RawAcct} {m : String} (hv : validAcct e = true) :
    procAcct (e, .err m) = ⟨e.name, e.clientID, e.clientKEY, some "ERROR", none⟩ := by
  simp [procAcct, hv]

theorem procAcct_invalid {e : RawAcct} {d : DiscRes} (hv : validAcct e = false) :
    procAcct (e, d) = ⟨e.name, e.clientID, e.clientKEY, none, none⟩ := by
  cases d <;> simp [procAcct, hv]

theorem loadStep_ok {st : LoadState} {e : RawAcct} {records : List (Option String)}
    (hv : validAcct e = true) :
    loadStep st (e, .ok records) =
      { accountStoreMap := dIns st.accountStoreMap (e.name.getD "", records.filterMap id),
        allStores := unionList st.allStores (records.filterMap id),
        configAccounts := st.configAccounts ++ [procAcct (e, .ok records)],
        log := st.log } := by
  simp [loadStep, hv]

theorem loadStep_err {st : LoadState} {e : RawAcct} {m : String} (hv : validAcct e = true) :
    loadStep st (e, .err m) =
      { st with configAccounts := st.configAccounts ++ [procAcct (e, .err m)],
                log := st.log ++ [.storeFetchFailed (e.name.getD "") m] } := by
  simp [loadStep, hv]

theorem loadStep_invalid {st : LoadState} {e : RawAcct} {d : DiscRes}
    (hv : validAcct e = false) :
    loadStep st (e, d) =
      { st with configAccounts := st.configAccounts ++ [procAcct (e, d)],
                log := st.log ++ [.malformedEntry e] } := by
  cases d <;> simp [loadStep, hv]

theorem loadStep_inv {st : LoadState} (hinv : StoresInv st) (ed : RawAcct × DiscRes) :
    StoresInv (loadStep st ed) := by
  obtain ⟨e, d⟩ := ed
  obtain ⟨hmem, hstat⟩ := hinv
  by_cases hv : validAcct e
  · cases d with
    | ok records =>
      have hA : (procAcct (e, DiscRes.ok records)).storeIDs.getD [] = records.filterMap id := by
        rw [procAcct_ok hv]
        rfl
      constructor
      · intro sid
        rw [loadStep_ok hv]
        simp only [mem_unionList, hmem sid, List.mem_append, List.mem_singleton]
        constructor
        · rintro (⟨a, ha, hsa⟩ | hs)
          · exact ⟨a, Or.inl ha, hsa⟩
          · exact ⟨procAcct (e, DiscRes.ok records), Or.inr rfl, by rw [hA]; exact hs⟩
        · rintro ⟨a, ha | rfl, hsa⟩
          · exact Or.inl ⟨a, ha, hsa⟩
          · right
            rw [hA] at hsa
            exact hsa
      · intro a ha sids hsids
        rw [loadStep_ok hv] at ha
        simp only [List.mem_append, List.mem_singleton] at ha
        rcases ha with ha | rfl
        · exact hstat a ha sids hsids
        · rw [procAcct_ok hv]
          by_cases hemp : (records.filterMap id).isEmpty = true <;> simp [hemp]
    | err m =>
      have hA : (procAcct (e, DiscRes.err m)).storeIDs.getD [] = ([] : List String) := by
        rw [procAcct_err hv]
        rfl
      constructor
      · intro sid
        rw [loadStep_err hv]
        simp only [hmem sid, List.mem_append, List.mem_singleton]
        constructor
        · rintro ⟨a, ha, hsa⟩
          exact ⟨a, Or.inl ha, hsa⟩
        · rintro ⟨a, ha | rfl, hsa⟩
          · exact ⟨a, ha, hsa⟩
          · rw [hA] at hsa
            simp at hsa
      · intro a ha sids hsids
        rw [loadStep_err hv] at ha
        simp only [List.mem_append, List.mem_singleton] at ha
        rcases ha with ha | rfl
        · exact hstat a ha sids hsids
        · rw [procAcct_err hv] at hsids
          simp at hsids
  · have hv' : validAcct e = false := by simpa using hv
    have hA : (procAcct (e, d)).storeIDs.getD [] = ([] : List String) := by
      rw [procAcct_invalid hv']
      rfl
    constructor
    · intro sid
      rw [loadStep_invalid hv']
      simp only [hmem sid, List.mem_append, List.mem_singleton]
      constructor
      · rintro ⟨a, ha, hsa⟩
        exact ⟨a, Or.inl ha, hsa⟩
      · rintro ⟨a, ha | rfl, hsa⟩
        · exact ⟨a, ha, hsa⟩
        · rw [hA] at hsa
          simp at hsa
    · intro a ha sids hsids
      rw [loadStep_invalid hv'] at ha
      simp only [List.mem_append, List.mem_singleton] at ha
      rcases ha with ha | rfl
      · exact hstat a ha sids hsids
      · rw [procAcct_invalid hv'] at hsids
        simp at hsids

theorem runLoad_inv (es : List (RawAcct × DiscRes)) : StoresInv (runLoad es) := by
  have base : StoresInv initState := by
    constructor
    · intro sid; simp [initState]
    · intro a ha; simp [initState] at ha
  unfold runLoad
  generalize initState = st0 at base ⊢
  induction es generalizing st0 with
  | nil => exact base
  | cons ed rest ih =>
    rw [List.foldl_cons]
    exact ih _ (loadStep_inv base ed)

/-! ## Dispatch lemmas -/

def countStore (ps : List (String × String)) (sid : String) : Nat :=
  (ps.filter fun pr => pr.2 == sid).length

theorem countStore_nil (sid : String) : countStore [] sid = 0 := rfl

theorem countStore_cons (p : String × String) (ps : List (String × String)) (sid : String) :
    countStore (p :: ps) sid = (if p.2 = sid then 1 else 0) + countStore ps sid := by
  simp only [countStore, List.filter_cons]
  by_cases h : p.2 = sid
  · simp [h]
    omega
  · simp [h]

theorem countStore_append (l1 l2 : List (String × String)) (sid : String) :
    countStore (l1 ++ l2) sid = countStore l1 sid + countStore l2 sid := by
  simp [countStore, List.filter_append]

/-- Behaviour of the inner store loop for one account: the pairs it emits,
the final `fetched` set, and the per-store submission count. -/
theorem submitInner_spec (aname : String) :
    ∀ (sids stores fetched : List String),
      (∀ pr ∈ (submitInner aname sids stores fetched).1,
          pr.1 = aname ∧ pr.2 ∈ sids ∧ pr.2 ∈ stores ∧ pr.2 ∉ fetched) ∧
      (∀ x, x ∈ (submitInner aname sids stores fetched).2 ↔
          x ∈ fetched ∨ (x ∈ sids ∧ x ∈ stores)) ∧
      (∀ sid, countStore (submitInner aname sids stores fetched).1 sid
          = if sid ∈ stores ∧ sid ∈ sids ∧ sid ∉ fetched then 1 else 0) := by
  intro sids
  induction sids with
  | nil =>
    intro stores fetched
    refine ⟨?_, ?_, ?_⟩
    · intro pr hpr; simp [submitInner] at hpr
    · intro x; simp [submitInner]
    · intro sid; simp [submitInner, countStore_nil]
  | cons s rest ih =>
    intro stores fetched
    by_cases hc : s ∈ stores ∧ s ∉ fetched
    · have hstep : submitInner aname (s :: rest) stores fetched
          = ((aname, s) :: (submitInner aname rest stores (fetched ++ [s])).1,
             (submitInner aname rest stores (fetched ++ [s])).2) := by
        simp [submitInner, hc]
      obtain ⟨ih1, ih2, ih3⟩ := ih stores (fetched ++ [s])
      refine ⟨?_, ?_, ?_⟩
      · intro pr hpr
        rw [hstep] at hpr
        rcases List.mem_cons.mp hpr with heq | hpr
        · rw [heq]
          exact ⟨rfl, by simp, hc.1, hc.2⟩
        · obtain ⟨h1, h2, h3, h4⟩ := ih1 pr hpr
          refine ⟨h1, by simp [h2], h3, ?_⟩
          intro hm
          exact h4 (by simp [hm])
      · intro x
        rw [hstep]
        rw [ih2 x]
        constructor
        · rintro (hx | ⟨hr, hs2⟩)
          · rcases List.mem_append.mp hx with hx | hx
            · exact Or.inl hx
            · have hxs : x = s := by simpa using hx
              refine Or.inr ⟨?_, ?_⟩
              · rw [hxs]; exact List.mem_cons_self s rest
              · rw [hxs]; exact hc.1
          · exact Or.inr ⟨List.mem_cons_of_mem s hr, hs2⟩
        · rintro (hx | ⟨hx, hs2⟩)
          · exact Or.inl (List.mem_append.mpr (Or.inl hx))
          · rcases List.mem_cons.mp hx with rfl | hr
            · exact Or.inl (List.mem_append.mpr (Or.inr (by simp)))
            · exact Or.inr ⟨hr, hs2⟩
      · intro sid
        rw [hstep]
        rw [countStore_cons, ih3 sid]
        by_cases hs : sid = s
        · subst hs
          have hnotin : ¬ (sid ∈ stores ∧ sid ∈ rest ∧ sid ∉ fetched ++ [sid]) := by
            rintro ⟨_, _, hni⟩
            exact hni (by simp)
          simp [hnotin, hc.1, hc.2]
        · have hs' : ¬ ((aname, s).2 = sid) := fun h => hs h.symm
          have hf : (sid ∈ fetched ++ [s]) ↔ sid ∈ fetched := by simp [hs]
          by_cases h1 : sid ∈ stores <;> by_cases h2 : sid ∈ rest <;>
            by_cases h3 : sid ∈ fetched <;> simp [hs, hs', h1, h2, h3, hf]
    · have hstep : submitInner aname (s :: rest) stores fetched
          = submitInner aname rest stores fetched := by
        simp [submitInner, hc]
      obtain ⟨ih1, ih2, ih3⟩ := ih stores fetched
      refine ⟨?_, ?_, ?_⟩
      · intro pr hpr
        rw [hstep] at hpr
        obtain ⟨h1, h2, h3, h4⟩ := ih1 pr hpr
        exact ⟨h1, by simp [h2], h3, h4⟩
      · intro x
        rw [hstep, ih2 x]
        constructor
        · rintro (hx | ⟨hr, hs2⟩)
          · exact Or.inl hx
          · exact Or.inr ⟨by simp [hr], hs2⟩
        · rintro (hx | ⟨hx, hs2⟩)
          · exact Or.inl hx
          · rcases List.mem_cons.mp hx with rfl | hr
            · rcases not_and_or.mp hc with h | h
              · exact absurd hs2 h
              · exact Or.inl (by simpa using h)
            · exact Or.inr ⟨hr, hs2⟩
      · intro sid
        rw [hstep, ih3 sid]
        by_cases hs : sid = s
        · subst hs
          rcases not_and_or.mp hc with h | h
          · simp [h]
          · have hfm : sid ∈ fetched := by simpa using h
            simp [hfm]
        · have hmem : sid ∈ s :: rest ↔ sid ∈ rest := by simp [hs]
          simp [hmem]

/-- Required fields present on a processed account dict. -/
def wfAcct (a : Acct) : Bool := a.name.isSome && a.clientID.isSome && a.clientKEY.isSome

theorem acctCreds_of_valid {a : Acct} (h : wfAcct a = true) :
    acctCreds a = .ok (a.clientID.getD "", a.clientKEY.getD "", a.name.getD "") := by
  simp [wfAcct, Bool.and_eq_true, Option.isSome_iff_exists] at h
  obtain ⟨⟨⟨n, hn⟩, ⟨ci, hci⟩⟩, ⟨ck, hck⟩⟩ := h
  simp [acctCreds, hn, hci, hck]

/-- Behaviour of the whole dispatch loop on well-formed accounts: it never
raises, submits each selected owned store exactly once, and attributes
each submitted store to the first account owning it. -/
theorem submitAll_spec :
    ∀ (accounts : List Acct) (stores fetched : List String),
      (∀ a ∈ accounts, wfAcct a = true) →
      (submitAll accounts stores fetched).2 = none ∧
      (∀ sid, countStore (submitAll accounts stores fetched).1 sid
          = if sid ∈ stores ∧ sid ∉ fetched ∧ (∃ a ∈ accounts, sid ∈ a.storeIDs.getD [])
            then 1 else 0) ∧
      (∀ pr ∈ (submitAll accounts stores fetched).1, pr.2 ∈ stores ∧ pr.2 ∉ fetched ∧
        ∃ b, accounts.find? (fun x => decide (pr.2 ∈ x.storeIDs.getD [])) = some b ∧
          pr.1 = b.name.getD "") := by
  intro accounts
  induction accounts with
  | nil =>
    intro stores fetched _
    refine ⟨rfl, ?_, ?_⟩
    · intro sid; simp [submitAll, countStore_nil]
    · intro pr hpr; simp [submitAll] at hpr
  | cons a rest ih =>
    intro stores fetched hwf
    have hcred : acctCreds a = .ok (a.clientID.getD "", a.clientKEY.getD "", a.name.getD "") :=
      acctCreds_of_valid (hwf a (by simp))
    have hstep : submitAll (a :: rest) stores fetched
        = ((submitInner (a.name.getD "") (a.storeIDs.getD []) stores fetched).1
            ++ (submitAll rest stores
                (submitInner (a.name.getD "") (a.storeIDs.getD []) stores fetched).2).1,
           (submitAll rest stores
                (submitInner (a.name.getD "") (a.storeIDs.getD []) stores fetched).2).2) := by
      simp [submitAll, hcred]
    obtain ⟨inner1, inner2, inner3⟩ :=
      submitInner_spec (a.name.getD "") (a.storeIDs.getD []) stores fetched
    obtain ⟨tailNone, tailCount, tailFind⟩ :=
      ih stores (submitInner (a.name.getD "") (a.storeIDs.getD []) stores fetched).2
        (fun x hx => hwf x (by simp [hx]))
    refine ⟨?_, ?_, ?_⟩
    · rw [hstep]
      exact tailNone
    · intro sid
      rw [hstep]
      simp only []
      rw [countStore_append, inner3 sid, tailCount sid]
      by_cases hS : sid ∈ stores <;> by_cases hF : sid ∈ fetched <;>
        by_cases hA : sid ∈ a.storeIDs.getD [] <;>
        by_cases hO : ∃ x ∈ rest, sid ∈ x.storeIDs.getD [] <;>
        simp [hS, hF, hA, hO, inner2 sid, List.exists_mem_cons_iff]
    · intro pr hpr
      rw [hstep] at hpr
      simp only [List.mem_append] at hpr
      rcases hpr with hpr | hpr
      · obtain ⟨h1, h2, h3, h4⟩ := inner1 pr hpr
        refine ⟨h3, h4, ⟨a, ?_, ?_⟩⟩
        · rw [List.find?_cons_of_pos]
          simp [h2]
        · rw [h1]
      · obtain ⟨hS, hF2, ⟨b, hfind, hname⟩⟩ := tailFind pr hpr
        have hnotf : pr.2 ∉ fetched := fun hf => hF2 ((inner2 pr.2).mpr (Or.inl hf))
        have hnotA : pr.2 ∉ a.storeIDs.getD [] :=
          fun hA => hF2 ((inner2 pr.2).mpr (Or.inr ⟨hA, hS⟩))
        refine ⟨hS, hnotf, ⟨b, ?_, hname⟩⟩
        rw [List.find?_cons_of_neg]
        · exact hfind
        · simp [hnotA]

/-! ## Fetch-client lemmas -/

theorem ne_empty_of_data {a : String} (h : a.data ≠ []) : a ≠ "" :=
  fun he => h ((string_eq_iff_data.mp he).trans rfl)

theorem append_ne_empty_left {a b : String} (h : a ≠ "") : a ++ b ≠ "" := by
  intro he
  apply h
  have hd := string_eq_iff_data.mp he
  rw [data_append] at hd
  exact string_eq_iff_data.mpr (List.append_eq_nil.mp (hd.trans rfl)).1

theorem append_ne_empty_right {a b : String} (h : b ≠ "") : a ++ b ≠ "" := by
  intro he
  apply h
  have hd := string_eq_iff_data.mp he
  rw [data_append] at hd
  exact string_eq_iff_data.mpr (List.append_eq_nil.mp (hd.trans rfl)).2

theorem natStr_ne_empty (n : Nat) : natStr n ≠ "" :=
  ne_empty_of_data (by rw [natStr_data]; exact natDig_ne_nil n)

theorem raiseForStatusMsg_ne_empty (r : HttpResp) (url : String) :
    raiseForStatusMsg r url ≠ "" := by
  unfold raiseForStatusMsg
  exact append_ne_empty_left (append_ne_empty_left (append_ne_empty_left
    (append_ne_empty_left (natStr_ne_empty r.status))))

theorem decodeErrStr_ne_empty (m : String) (line col pos : Nat) :
    decodeErrStr m line col pos ≠ "" := by
  unfold decodeErrStr
  apply append_ne_empty_left
  apply append_ne_empty_right
  exact natStr_ne_empty pos

theorem fetch_data_exn {ep : String} (sid start stop cid ckey : String) (m : String)
    (hep : (lookupTbl ENDPOINTS ep).isSome = true) :
    fetch_data ep sid start stop cid ckey (.exn m) none = .ok (errObj m) := by
  obtain ⟨tpl, htpl⟩ := Option.isSome_iff_exists.mp hep
  simp [fetch_data, htpl]

theorem fetch_data_http_err (sid start stop cid ckey : String) {ep : String} {r : HttpResp}
    (hep : (lookupTbl ENDPOINTS ep).isSome = true)
    (h4 : 400 ≤ r.status) (h6 : r.status < 600) :
    ∃ msg, fetch_data ep sid start stop cid ckey (.resp r) none = .ok (errObj msg)
      ∧ msg ≠ "" := by
  obtain ⟨tpl, htpl⟩ := Option.isSome_iff_exists.mp hep
  refine ⟨raiseForStatusMsg r (BASE_URL ++ formatPath tpl sid start stop), ?_,
    raiseForStatusMsg_ne_empty r _⟩
  simp [fetch_data, htpl, h4, h6]

theorem fetch_data_decode_fail (sid start stop cid ckey : String) {ep : String} {r : HttpResp}
    {m : String} {line col pos : Nat}
    (hep : (lookupTbl ENDPOINTS ep).isSome = true)
    (hnot : ¬(400 ≤ r.status ∧ r.status < 600)) (hb : r.body = .fail m line col pos) :
    ∃ msg, fetch_data ep sid start stop cid ckey (.resp r) none = .ok (errObj msg)
      ∧ msg ≠ "" := by
  obtain ⟨tpl, htpl⟩ := Option.isSome_iff_exists.mp hep
  refine ⟨decodeErrStr m line col pos, ?_, decodeErrStr_ne_empty m line col pos⟩
  simp [fetch_data, htpl, hnot, hb]

theorem fetch_data_success (sid start stop cid ckey : String) {ep : String} {r : HttpResp}
    {j : Json} (hep : (lookupTbl ENDPOINTS ep).isSome = true)
    (hnot : ¬(400 ≤ r.status ∧ r.status < 600)) (hb : r.body = .ok j) :
    fetch_data ep sid start stop cid ckey (.resp r) none = .ok j := by
  obtain ⟨tpl, htpl⟩ := Option.isSome_iff_exists.mp hep
  simp [fetch_data, htpl, hnot, hb]

theorem fetch_data_total {ep : String} (sid start stop cid ckey : String) (net : HttpOutcome)
    (hep : (lookupTbl ENDPOINTS ep).isSome = true) :
    ∃ j, fetch_data ep sid start stop cid ckey net none = .ok j := by
  cases net with
  | exn m => exact ⟨errObj m, fetch_data_exn sid start stop cid ckey m hep⟩
  | resp r =>
    by_cases hc : 400 ≤ r.status ∧ r.status < 600
    · obtain ⟨msg, heq, _⟩ := fetch_data_http_err sid start stop cid ckey hep hc.1 hc.2
      exact ⟨errObj msg, heq⟩
    · cases hb : r.body with
      | fail m line col pos =>
        obtain ⟨msg, heq, _⟩ := fetch_data_decode_fail sid start stop cid ckey hep hc hb
        exact ⟨errObj msg, heq⟩
      | ok j => exact ⟨j, fetch_data_success sid start stop cid ckey hep hc hb⟩

theorem fetch_data_logfail_exn {ep : String} (sid start stop cid ckey : String) (m e : String)
    (hep : (lookupTbl ENDPOINTS ep).isSome = true) :
    fetch_data ep sid start stop cid ckey (.exn m) (some e) = .error e := by
  obtain ⟨tpl, htpl⟩ := Option.isSome_iff_exists.mp hep
  simp [fetch_data, htpl]

theorem fetch_data_logfail_http {ep : String} (sid start stop cid ckey : String) (e : String)
    {r : HttpResp} (hep : (lookupTbl ENDPOINTS ep).isSome = true)
    (h4 : 400 ≤ r.status) (h6 : r.status < 600) :
    fetch_data ep sid start stop cid ckey (.resp r) (some e) = .error e := by
  obtain ⟨tpl, htpl⟩ := Option.isSome_iff_exists.mp hep
  simp [fetch_data, htpl, h4, h6]

/-! ## Consumer lemmas -/

theorem jLookup_mem_keys : ∀ kvs (key : String) (v : Json),
    jLookup kvs key = some v → key ∈ keysOf kvs
  | .nil => by intro key v h; simp [jLookup] at h
  | .cons k v' tl => by
    intro key v h
    rw [jLookup] at h
    by_cases hk : k = key
    · rw [keysOf, hk]
      exact List.mem_cons_self key _
    · rw [if_neg hk] at h
      exact List.mem_cons_of_mem k (jLookup_mem_keys tl key v h)

theorem contains_of_mem {l : List String} {x : String} (h : x ∈ l) : l.contains x = true := by
  simpa using h

theorem procAcct_wf {e : RawAcct} (d : DiscRes) (hv : validAcct e = true) :
    wfAcct (procAcct (e, d)) = true := by
  cases d with
  | ok records =>
    rw [procAcct_ok hv]
    simpa [wfAcct, validAcct] using hv
  | err m =>
    rw [procAcct_err hv]
    simpa [wfAcct, validAcct] using hv

/-! ## Concrete inputs used by witnesses and counterexamples -/

/-- `{"a": {"b": 1}, "c": [10, 20]}` — the spec's round-trip example. -/
def jex : Json :=
  Json.obj (.cons "a" (Json.obj (.cons "b" (Json.num 1) .nil))
    (.cons "c" (Json.arr (.cons (Json.num 10) (.cons (Json.num 20) .nil))) .nil))

/-- `{"a.b": 1, "a": {"b": 2}}` — two distinct leaves rendering to the
same path `"a.b"`. -/
def jbad : Json :=
  Json.obj (.cons "a.b" (Json.num 1)
    (.cons "a" (Json.obj (.cons "b" (Json.num 2) .nil)) .nil))

/-- One well-formed account whose discovery returns store `42` (plus one
record lacking `restaurantNumber`, which is dropped). -/
def entOk : List (RawAcct × DiscRes) :=
  [(⟨some "A", some "idA", some "keyA"⟩, .ok [some "42", none])]

/-- A config with a malformed first entry (no `ClientID`) and a
well-formed second entry owning store `123`. -/
def brokenEntries : List (RawAcct × DiscRes) :=
  [(⟨some "A", none, some "keyA"⟩, .err "401 Client Error"),
   (⟨some "B", some "idB", some "keyB"⟩, .ok [some "123"])]

/-! ## Claims -/

/-- Claim C1 (amended): for every selected store set `S` and every
directory bootstrapped from a config whose entries all carry `Name`,
`ClientID` and `ClientKEY`, the dispatch loop of `open_view_window`
raises nothing and submits exactly one fetch per store id in
`S ∩ all_stores` — never zero, never more than one, even when a store id
appears under several accounts — and the account used is the first
account in `config_accounts` iteration order whose store list contains
that id.  (As stated the claim fails: a malformed entry is kept in
`config_accounts` and its unguarded `acct["ClientID"]` access aborts the
loop — see the counterexample.) -/
theorem dispatch_unique_fetch_per_store :
    ∀ (es : List (RawAcct × DiscRes)) (S : List String) (sid : String),
      (∀ ed ∈ es, validAcct ed.1 = true) →
      (submitAll (runLoad es).configAccounts S []).2 = none ∧
      countStore (submitAll (runLoad es).configAccounts S []).1 sid
        = (if sid ∈ S ∧ sid ∈ (runLoad es).allStores then 1 else 0) ∧
      (∀ pr ∈ (submitAll (runLoad es).configAccounts S []).1, pr.2 = sid →
        ∃ b, (runLoad es).configAccounts.find?
              (fun x => decide (sid ∈ x.storeIDs.getD [])) = some b
          ∧ pr.1 = b.name.getD "") := by
  intro es S sid hvalid
  have hwf : ∀ a ∈ (runLoad es).configAccounts, wfAcct a = true := by
    intro a ha
    rw [runLoad_accounts] at ha
    obtain ⟨ed, hed, rfl⟩ := List.mem_map.mp ha
    obtain ⟨e, d⟩ := ed
    exact procAcct_wf d (hvalid (e, d) hed)
  obtain ⟨hnone, hcount, hfind⟩ := submitAll_spec (runLoad es).configAccounts S [] hwf
  refine ⟨hnone, ?_, ?_⟩
  · rw [hcount sid]
    have hiff : (sid ∈ S ∧ sid ∉ ([] : List String) ∧
        (∃ a ∈ (runLoad es).configAccounts, sid ∈ a.storeIDs.getD []))
        ↔ (sid ∈ S ∧ sid ∈ (runLoad es).allStores) := by
      have hmem := (runLoad_inv es).1 sid
      constructor
      · rintro ⟨h1, _, h3⟩
        exact ⟨h1, hmem.mpr h3⟩
      · rintro ⟨h1, h2⟩
        exact ⟨h1, by simp, hmem.mp h2⟩
    rw [if_congr hiff rfl rfl]
  · intro pr hpr heq
    obtain ⟨_, _, b, hfindb, hname⟩ := hfind pr hpr
    rw [heq] at hfindb
    exact ⟨b, hfindb, hname⟩

/-- Claim C1, witness: a one-account config owning store `42`; selecting
`{42}` submits exactly one fetch for it. -/
theorem dispatch_unique_fetch_per_store_witness :
    (∀ ed ∈ entOk, validAcct ed.1 = true) ∧
    countStore (submitAll (runLoad entOk).configAccounts ["42"] []).1 "42" = 1 := by
  refine ⟨by decide, ?_⟩
  have h := dispatch_unique_fetch_per_store entOk ["42"] "42" (by decide)
  rw [h.2.1]
  decide

/-- Claim C1, counterexample to the unamended claim: with a malformed
first entry, store `123` is selected and in `all_stores`, yet the
dispatch loop submits zero fetches — it dies on `KeyError: ClientID`. -/
theorem dispatch_malformed_config_cex :
    "123" ∈ (runLoad brokenEntries).allStores ∧ "123" ∈ ["123"] ∧
    countStore (submitAll (runLoad brokenEntries).configAccounts ["123"] []).1 "123" = 0 ∧
    (submitAll (runLoad brokenEntries).configAccounts ["123"] []).2
      = some "KeyError: ClientID" := by
  refine ⟨by decide, by decide, by decide, by decide⟩

/-- Claim C2 (amended): for every report name registered in `ENDPOINTS`,
provided the diagnostic-log append does not itself raise, `fetch_data`
never raises: a transport error returns `{"error": str(exc)}` carrying
the exception's rendering, an HTTP status in 400–599 (the only statuses
`raise_for_status` raises for) or a JSON-decode failure returns
`{"error": msg}` with a non-empty message, and any other response with a
decodable body is returned unchanged; consequently every request of such
a batch yields a result, so one store's failing fetch cannot abort its
siblings. -/
theorem fetch_data_failure_contract :
    (∀ ep sid start stop cid ckey net,
      (lookupTbl ENDPOINTS ep).isSome = true →
      (∃ j, fetch_data ep sid start stop cid ckey net none = .ok j) ∧
      (∀ m, net = .exn m →
        fetch_data ep sid start stop cid ckey net none = .ok (errObj m)) ∧
      (∀ r, net = .resp r → 400 ≤ r.status → r.status < 600 →
        ∃ msg, fetch_data ep sid start stop cid ckey net none = .ok (errObj msg)
          ∧ msg ≠ "") ∧
      (∀ r m line col pos, net = .resp r → r.body = .fail m line col pos →
        ¬(400 ≤ r.status ∧ r.status < 600) →
        ∃ msg, fetch_data ep sid start stop cid ckey net none = .ok (errObj msg)
          ∧ msg ≠ "") ∧
      (∀ r j, net = .resp r → r.body = .ok j → ¬(400 ≤ r.status ∧ r.status < 600) →
        fetch_data ep sid start stop cid ckey net none = .ok j)) ∧
    (∀ reqs : List FetchCall,
      (∀ q ∈ reqs, (lookupTbl ENDPOINTS q.ep).isSome = true ∧ q.logExc = none) →
      ∀ res ∈ runBatch reqs, ∃ j, res = .ok j) := by
  constructor
  · intro ep sid start stop cid ckey net hep
    refine ⟨fetch_data_total sid start stop cid ckey net hep, ?_, ?_, ?_, ?_⟩
    · intro m hm
      rw [hm]
      exact fetch_data_exn sid start stop cid ckey m hep
    · intro r hr h4 h6
      rw [hr]
      exact fetch_data_http_err sid start stop cid ckey hep h4 h6
    · intro r m line col pos hr hb hnot
      rw [hr]
      exact fetch_data_decode_fail sid start stop cid ckey hep hnot hb
    · intro r j hr hb hnot
      rw [hr]
      exact fetch_data_success sid start stop cid ckey hep hnot hb
  · intro reqs hreq res hres
    rw [runBatch] at hres
    obtain ⟨q, hq, rfl⟩ := List.mem_map.mp hres
    obtain ⟨hep, hlog⟩ := hreq q hq
    rw [hlog]
    exact fetch_data_total q.sid q.start q.stop q.cid q.ckey q.net hep

/-- Claim C2, witness: a timeout and an HTTP 500 on `Sales Summary` both
come back as failure values, not exceptions. -/
theorem fetch_data_failure_contract_witness :
    fetch_data "Sales Summary" "1" "2024-01-01" "2024-01-02" "c" "k"
      (.exn "HTTPSConnectionPool: Read timed out.") none
      = .ok (errObj "HTTPSConnectionPool: Read timed out.") ∧
    (∃ j, fetch_data "Sales Summary" "1" "2024-01-01" "2024-01-02" "c" "k"
      (.resp ⟨500, "Internal Server Error", .fail "Expecting value" 1 1 0⟩) none = .ok j) :=
  ⟨(fetch_data_failure_contract.1 "Sales Summary" "1" "2024-01-01" "2024-01-02" "c" "k"
      (.exn "HTTPSConnectionPool: Read timed out.") (by decide)).2.1 _ rfl,
   (fetch_data_failure_contract.1 "Sales Summary" "1" "2024-01-01" "2024-01-02" "c" "k"
      (.resp ⟨500, "Internal Server Error", .fail "Expecting value" 1 1 0⟩) (by decide)).1⟩

/-- Claim C2, counterexample to "non-2xx ⇒ Failure": `raise_for_status`
only raises for 4xx/5xx, so a 300 response with a decodable body is
returned as a success value with no `"error"` key. -/
theorem fetch_data_non2xx_success_cex :
    fetch_data "Sales Summary" "1" "d1" "d2" "c" "k"
      (.resp ⟨300, "Multiple Choices", .ok (Json.num 5)⟩) none = .ok (Json.num 5) ∧
    hasErrorKey (Json.num 5) = false :=
  ⟨rfl, rfl⟩

/-- Claim C3 (amended): whenever the reference recursive flattening emits
pairwise-distinct paths (in particular on the spec's example),
`flatten_json` equals it; in general the dict accumulation merges
colliding paths, so the equality can fail — see the counterexample. -/
theorem flatten_eq_reference :
    ∀ (j : Json) (p : String), ((flattenRef j p).map Prod.fst).Nodup →
      flatten_json j p = flattenRef j p :=
  fun j p h => flatten_eq_ref j p h

/-- Claim C3, witness: the spec's example
`flatten({"a": {"b": 1}, "c": [10, 20]})` yields, in order,
`[("a.b", 1), ("c[0]", 10), ("c[1]", 20)]`. -/
theorem flatten_eq_reference_witness :
    ((flattenRef jex "").map Prod.fst).Nodup ∧
    flatten_json jex ""
      = [("a.b", Json.num 1), ("c[0]", Json.num 10), ("c[1]", Json.num 20)] := by
  refine ⟨by decide, ?_⟩
  rw [flatten_eq_reference jex "" (by decide)]
  rfl

/-- Claim C3, counterexample: on `{"a.b": 1, "a": {"b": 2}}` the
reference emits two entries but `flatten_json` collapses them into one
dict slot, so the two disagree. -/
theorem flatten_dict_collision_cex :
    flatten_json jbad "" = [("a.b", Json.num 2)] ∧
    flattenRef jbad "" = [("a.b", Json.num 1), ("a.b", Json.num 2)] ∧
    flatten_json jbad "" ≠ flattenRef jbad "" := by
  refine ⟨rfl, rfl, ?_⟩
  intro h
  have hlen := congrArg List.length h
  rw [show flatten_json jbad "" = [("a.b", Json.num 2)] from rfl] at hlen
  rw [show flattenRef jbad ""
      = [("a.b", Json.num 1), ("a.b", Json.num 2)] from rfl] at hlen
  simp at hlen

/-- Claim C4 (amended): for JSON values whose object keys are non-empty,
contain none of the path characters `.`, `[`, `]`, and are distinct
within each object, the emitted paths are pairwise distinct and the
flattened output has exactly one entry per scalar leaf.  (As stated over
every JSON value the claim fails — see the counterexample.) -/
theorem flatten_paths_distinct_of_clean :
    ∀ j : Json, cleanJson j = true →
      ((flattenRef j "").map Prod.fst).Nodup ∧
      (flatten_json j "").length = leafCount j := by
  intro j h
  have hnd := ref_paths_nodup h
  refine ⟨hnd, ?_⟩
  rw [flatten_eq_ref j "" hnd, ref_length]

/-- Claim C4, witness: the example value is clean and flattens to one
entry per leaf. -/
theorem flatten_paths_distinct_of_clean_witness :
    cleanJson jex = true ∧ (flatten_json jex "").length = leafCount jex :=
  ⟨by decide, (flatten_paths_distinct_of_clean jex (by decide)).2⟩

/-- Claim C4, counterexample: `{"a.b": 1, "a": {"b": 2}}` has two scalar
leaves but the flattened dict has one entry, and the emitted paths are
not pairwise distinct. -/
theorem flatten_duplicate_path_cex :
    (flatten_json jbad "").length = 1 ∧ leafCount jbad = 2 ∧
    ¬ ((flattenRef jbad "").map Prod.fst).Nodup := by
  refine ⟨rfl, rfl, by decide⟩

/-- Claim C5: an account whose store-listing call fails ends with
`Status = "ERROR"` and no `StoreIDs` key (so its store list reads as
`[]`), and it contributes no entries to `all_stores` and no key to
`account_to_stores`. -/
theorem bootstrap_error_account :
    ∀ (pre post : List (RawAcct × DiscRes)) (e : RawAcct) (m : String),
      validAcct e = true →
      (runLoad (pre ++ (e, .err m) :: post)).configAccounts
        = pre.map procAcct
          ++ (⟨e.name, e.clientID, e.clientKEY, some "ERROR", none⟩ : Acct)
          :: post.map procAcct ∧
      (Acct.mk e.name e.clientID e.clientKEY (some "ERROR") none).storeIDs.getD [] = [] ∧
      (runLoad (pre ++ (e, .err m) :: post)).allStores
        = (runLoad (pre ++ post)).allStores ∧
      (runLoad (pre ++ (e, .err m) :: post)).accountStoreMap
        = (runLoad (pre ++ post)).accountStoreMap := by
  intro pre post e m hv
  have hproj := @runLoad_skip_entry pre post e (DiscRes.err m) (Or.inr ⟨m, rfl⟩)
  refine ⟨?_, rfl, congrArg Prod.fst hproj, congrArg Prod.snd hproj⟩
  rw [runLoad_accounts, List.map_append, List.map_cons, procAcct_err hv]

/-- Claim C5, witness: one valid account with a failing discovery call
leaves the directory empty. -/
theorem bootstrap_error_account_witness :
    validAcct ⟨some "A", some "idA", some "keyA"⟩ = true ∧
    (runLoad [((⟨some "A", some "idA", some "keyA"⟩ : RawAcct), DiscRes.err "boom")]).allStores
      = [] := by
  refine ⟨by decide, ?_⟩
  have h := bootstrap_error_account [] [] ⟨some "A", some "idA", some "keyA"⟩ "boom" (by decide)
  exact h.2.2.1.trans rfl

/-- Claim C6 (the code contradicts it): the malformed entry is skipped by
the loading loop with a log entry and contributes nothing to the
directory, but line 173 exposes it through `config_accounts`, after which
`build_gui` dies on `acct["Status"]` and `open_view_window`'s dispatch
loop dies on `acct["ClientID"]` — so the run does not proceed normally
for the well-formed accounts. -/
theorem malformed_entry_crashes_gui_and_dispatch :
    (runLoad brokenEntries).allStores = ["123"] ∧
    (runLoad brokenEntries).accountStoreMap = [("B", ["123"])] ∧
    buildAccountVars (runLoad brokenEntries).configAccounts = .error "KeyError: Status" ∧
    submitAll (runLoad brokenEntries).configAccounts ["123"] []
      = ([], some "KeyError: ClientID") :=
  ⟨rfl, rfl, rfl, rfl⟩

/-- Claim C7: with no configuration file present, bootstrap writes a
template of exactly three placeholder accounts and halts for setup
instead of proceeding; the template is all it produces. -/
theorem missing_config_writes_template_and_halts :
    load_config_and_stores none = .halted defaultCfg ∧
    defaultCfg.length = 3 ∧
    defaultCfg.all (fun a => (a.clientID == some placeholderID)
      && (a.clientKEY == some placeholderKEY) && a.name.isSome) = true :=
  ⟨rfl, rfl, rfl⟩

/-- Claim C8 (amended): `log_error` has no exception guard, so a failing
log append propagates out of `fetch_data` instead of being swallowed;
only when the append succeeds does `fetch_data` return its `Failure`
value. -/
theorem log_write_failure_propagates :
    ∀ (ep sid start stop cid ckey m e : String),
      (lookupTbl ENDPOINTS ep).isSome = true →
      fetch_data ep sid start stop cid ckey (.exn m) (some e) = .error e ∧
      (∀ r : HttpResp, 400 ≤ r.status → r.status < 600 →
        fetch_data ep sid start stop cid ckey (.resp r) (some e) = .error e) ∧
      fetch_data ep sid start stop cid ckey (.exn m) none = .ok (errObj m) := by
  intro ep sid start stop cid ckey m e hep
  exact ⟨fetch_data_logfail_exn sid start stop cid ckey m e hep,
    fun r h4 h6 => fetch_data_logfail_http sid start stop cid ckey e hep h4 h6,
    fetch_data_exn sid start stop cid ckey m hep⟩

/-- Claim C8, witness at a concrete input. -/
theorem log_write_failure_propagates_witness :
    fetch_data "Sales Summary" "1" "d1" "d2" "c" "k" (.exn "timed out")
      (some "OSError: disk full") = .error "OSError: disk full" ∧
    fetch_data "Sales Summary" "1" "d1" "d2" "c" "k" (.exn "timed out") none
      = .ok (errObj "timed out") :=
  ⟨(log_write_failure_propagates "Sales Summary" "1" "d1" "d2" "c" "k" "timed out"
      "OSError: disk full" (by decide)).1,
   (log_write_failure_propagates "Sales Summary" "1" "d1" "d2" "c" "k" "timed out"
      "OSError: disk full" (by decide)).2.2⟩

/-- Claim C8, counterexample to "log-write errors are swallowed": with a
failing append, `fetch_data` raises the log exception instead of
returning its `Failure` value. -/
theorem log_write_swallow_cex :
    fetch_data "Sales Summary" "1" "d1" "d2" "c" "k" (.exn "timed out")
      (some "OSError: disk full") = .error "OSError: disk full" ∧
    fetch_data "Sales Summary" "1" "d1" "d2" "c" "k" (.exn "timed out")
      (some "OSError: disk full") ≠ .ok (errObj "timed out") :=
  ⟨rfl, fun h => Except.noConfusion h⟩

/-- Claim C9: every store id in `all_stores` appears in the store list of
at least one account whose status is `OK` or `EMPTY` — never only under
`ERROR` accounts, which contribute no stores. -/
theorem all_stores_owned_by_live_account :
    ∀ (es : List (RawAcct × DiscRes)) (sid : String),
      sid ∈ (runLoad es).allStores →
      ∃ a ∈ (runLoad es).configAccounts,
        (a.status = some "OK" ∨ a.status = some "EMPTY") ∧ sid ∈ a.storeIDs.getD [] := by
  intro es sid hmem
  obtain ⟨hiff, hstat⟩ := runLoad_inv es
  obtain ⟨a, ha, hsa⟩ := (hiff sid).mp hmem
  rcases hsome : a.storeIDs with _ | sids
  · rw [hsome] at hsa
    simp at hsa
  · exact ⟨a, ha, hstat a ha sids hsome, hsa⟩

/-- Claim C9, witness: store `42` in the directory is owned by an `OK`
account. -/
theorem all_stores_owned_by_live_account_witness :
    "42" ∈ (runLoad entOk).allStores ∧
    ∃ a ∈ (runLoad entOk).configAccounts,
      (a.status = some "OK" ∨ a.status = some "EMPTY") ∧ "42" ∈ a.storeIDs.getD [] :=
  ⟨by decide, all_stores_owned_by_live_account entOk "42" (by decide)⟩

/-- Claim C10: every consumer discriminates a fetch result by the
presence of the dictionary key `"error"`: when the decoded body is an
object carrying that key, `open_view_window`, the Sales Today view and
the Labor Today view each classify it as a failure, discard the payload,
and surface the value stored under `"error"`. -/
theorem error_key_discrimination :
    ∀ (kvs : JsonObj) (v : Json), jLookup kvs "error" = some v →
      viewHandle (Json.obj kvs) = .ok (.failure v) ∧
      salesHandle (Json.obj kvs) = .ok (.err v) ∧
      laborHandle (Json.obj kvs) = .ok (.err v) := by
  intro kvs v h
  have hm : "error" ∈ keysOf kvs := jLookup_mem_keys kvs "error" v h
  have hin : (keysOf kvs).contains "error" = true := contains_of_mem hm
  refine ⟨?_, ?_, ?_⟩ <;>
    simp [viewHandle, salesHandle, laborHandle, pyIn, pySubscript, hin, hm, h,
      Bind.bind, Except.bind, Pure.pure, Except.pure]

/-- Claim C10, witness: `{"error": "boom"}` is classified as a failure
showing `"boom"` by all three consumers. -/
theorem error_key_discrimination_witness :
    jLookup (JsonObj.cons "error" (Json.str "boom") .nil) "error" = some (Json.str "boom") ∧
    viewHandle (Json.obj (JsonObj.cons "error" (Json.str "boom") .nil))
      = .ok (.failure (Json.str "boom")) :=
  ⟨rfl, (error_key_discrimination (JsonObj.cons "error" (Json.str "boom") .nil)
    (Json.str "boom") rfl).1⟩

end LiveIQ
